import Mathlib

/-!
Verification of the Bichameral-AI router (`router_service.py`) against its
natural-language specification.

Text is modelled as `List Char` (a Python `str` is a sequence of code points).
The external Prolog engine (`pyswip`) is modelled as an oracle
`List Char → Except (List Char) (List PrologDecision)`: a query string either
raises an exception (carrying its message) or yields a list of solutions.
The routing rule file `routing_rules.pl` is not part of the sources, so the
behaviour of the `route/2` predicate is modelled from the specification
(definitions marked `Modelled from the spec:`).
-/

set_option autoImplicit false

namespace Router

/-- Text and tokens are sequences of characters, as in Python. -/
abbrev Str := List Char

/-- Coercion from Lean string literals to the character-list model. -/
def lit (s : String) : Str := s.data

/-- Model of Python `str.lower` on one character (ASCII letters; identical to
`Char.toLower` in the core library). -/
def pyLower (c : Char) : Char := Char.toLower c

/-- Model of Python `str.split()` whitespace (the ASCII whitespace characters
recognised by `str.isspace`). -/
def pySpace (c : Char) : Bool :=
  c = ' ' || c = '\t' || c = '\n' || c = '\r' || c = '\x0b' || c = '\x0c'

/-- The three characters removed by `RouterService._tokenize`. -/
def isStripped (c : Char) : Bool := c = '.' || c = ',' || c = '?'

/-- Model of Python `str.replace(ch, "")`: delete every occurrence of `ch`. -/
def removeChar (ch : Char) (s : Str) : Str := s.filter (fun c => c ≠ ch)

/-- Auxiliary for `splitWs`: `acc` is the reversed current word. -/
def splitWsAux : Str → Str → List Str
  | [], acc => if acc.isEmpty then [] else [acc.reverse]
  | c :: cs, acc =>
    if pySpace c then
      if acc.isEmpty then splitWsAux cs [] else acc.reverse :: splitWsAux cs []
    else splitWsAux cs (c :: acc)

/-- Model of Python `str.split()` with no argument: split on runs of
whitespace, never producing empty words. -/
def splitWs (s : Str) : List Str := splitWsAux s []

/-- `RouterService._tokenize`: lowercase, then delete `.`, `,`, `?` (in that
order, as the three `replace` calls do), then split on whitespace. -/
def tokenize (text : Str) : List Str :=
  splitWs (removeChar '?' (removeChar ',' (removeChar '.' (text.map pyLower))))

/-- The cleaned character sequence fed to the whitespace split (the value of
`clean_text` in `_tokenize`). -/
def cleanText (text : Str) : Str :=
  removeChar '?' (removeChar ',' (removeChar '.' (text.map pyLower)))

/-! ### The spec-modelled rule engine (`routing_rules.pl` is not in the sources) -/

/-- Does the phrase `p` (a list of consecutive tokens) occur starting at the
head of `ts`? -/
def phraseAt : List Str → List Str → Bool
  | [], _ => true
  | _ :: _, [] => false
  | p :: ps, t :: ts => p = t && phraseAt ps ts

/-- Does the phrase `p` occur contiguously anywhere in `ts`? -/
def phraseIn (p : List Str) (ts : List Str) : Bool :=
  match ts with
  | [] => phraseAt p []
  | _ :: rest => phraseAt p ts || phraseIn p rest

/-- Modelled from the spec: the ordered domain rules of the missing
`routing_rules.pl` — each rule is a set of trigger keywords/phrases paired
with the domain it selects; first match wins, `unknown` when none match. -/
def domainRules : List (List (List Str) × Str) :=
  [ ([[lit "architecture"], [lit "refactor"], [lit "dependency", lit "injection"],
      [lit "microservices"]], lit "coding_architecture"),
    ([[lit "optimize"], [lit "function"], [lit "loop"], [lit "performance"],
      [lit "implementation"]], lit "coding_implementation"),
    ([[lit "story"], [lit "poem"], [lit "creative"]], lit "creative"),
    ([[lit "scan"], [lit "pdf"], [lit "image"], [lit "document"]], lit "documents") ]

/-- Modelled from the spec: the domain classifier — first rule whose trigger
set intersects the token sequence wins; no match gives `unknown`. -/
def classifyDomain (ts : List Str) : Str :=
  match domainRules.find? (fun r => r.1.any (fun p => phraseIn p ts)) with
  | some r => r.2
  | none => lit "unknown"

/-- Modelled from the spec: the keyword→weight table of the stakes scorer
(only the confirmed data points carry nonzero weight; `function` carries
weight 0 and exists only to be recognised). -/
def weightTable : List (Str × Nat) :=
  [ (lit "optimize", 2), (lit "function", 0) ]

/-- Weight of one token: its table entry, or 0 when absent. -/
def tokenWeight (t : Str) : Nat :=
  match weightTable.find? (fun e => e.1 = t) with
  | some e => e.2
  | none => 0

/-- Modelled from the spec: the complexity score — sum of per-keyword weights
over every token occurrence. -/
def complexityScore (ts : List Str) : Nat := (ts.map tokenWeight).sum

/-- Modelled from the spec: bucket the score into a stakes level by fixed
thresholds (0 → low, 1–4 → medium, above → high; reproduces score 2 →
medium). -/
def bucketStakes (score : Nat) : Str :=
  if score = 0 then lit "low"
  else if score ≤ 4 then lit "medium"
  else lit "high"

/-- Modelled from the spec: stakes with the domain override — architecture is
unconditionally high, otherwise the numeric bucket. -/
def stakesOf (domain : Str) (score : Nat) : Str :=
  if domain = lit "coding_architecture" then lit "high" else bucketStakes score

/-- Modelled from the spec: the per-tool trigger keyword sets of the tool
detector. -/
def toolRules : List (Str × List Str) :=
  [ (lit "ocr", [lit "scan", lit "pdf"]),
    (lit "vision", [lit "image", lit "photo", lit "picture"]),
    (lit "embeddings", [lit "find", lit "similar", lit "search"]) ]

/-- Modelled from the spec: the tool detector — each tool fires independently
when any of its trigger tokens appears. -/
def detectTools (ts : List Str) : List Str :=
  (toolRules.filter (fun r => r.2.any (fun k => ts.contains k))).map (fun r => r.1)

/-- Modelled from the spec: the model selector — fixed total lookup over
(domain, stakes) with `gpt_oss_20b` as the system default. -/
def selectModel (domain stakes : Str) : Str :=
  if domain = lit "coding_architecture" ∧ stakes = lit "high" then lit "qwen_coder_32b"
  else if domain = lit "coding_implementation" ∧ stakes = lit "medium" then lit "nemotron_30b"
  else if domain = lit "creative" ∧ stakes = lit "low" then lit "mythomax_13b"
  else lit "gpt_oss_20b"

/-- Modelled from the spec: the validation policy mapper — fixed total lookup
over (domain, stakes) with `end_stage` as the default. -/
def selectValidation (domain stakes : Str) : Str :=
  if domain = lit "coding_architecture" ∧ stakes = lit "high" then lit "block_by_block"
  else if domain = lit "creative" ∧ stakes = lit "low" then lit "none"
  else lit "end_stage"

/-- The record to which the Prolog variable `Decision` is bound: the fields
`route_request` extracts (`domain`, `stakes`, `model`, `validation`, `tools`,
`score`). -/
structure PrologDecision where
  domain : Str
  stakes : Str
  model : Str
  validation : Str
  tools : List Str
  score : Nat
deriving DecidableEq, Repr

/-- Modelled from the spec: the decision computed by the `route/2` predicate
for a token list — domain classification, scoring, override, tool detection
and the two selectors, assembled into one record. -/
def routeDecision (ts : List Str) : PrologDecision :=
  let d := classifyDomain ts
  let score := complexityScore ts
  let s := stakesOf d score
  { domain := d, stakes := s, model := selectModel d s,
    validation := selectValidation d s, tools := detectTools ts, score := score }

/-! ### The decision engine: `RouterService.route_request` -/

/-- The Python dict returned by `route_request`: `complexity_score` is present
only on the success path, `error` only on the fallback path, so both are
optional fields. -/
structure RoutingDecision where
  domain : Str
  stakes : Str
  model : Str
  validation_policy : Str
  tools_required : List Str
  complexity_score : Option Nat := none
  error : Option Str := none
deriving DecidableEq, Repr

/-- `RouterService._fallback_response`: the fixed fallback dict; only `error`
depends on the argument. -/
def fallback_response (reason : Str) : RoutingDecision :=
  { domain := lit "unknown", stakes := lit "medium", model := lit "gpt_oss_20b",
    validation_policy := lit "end_stage", tools_required := [lit "embeddings"],
    error := some reason }

/-- Model of Python `",".join`: interleave a comma between the chunks. -/
def joinComma : List Str → Str
  | [] => []
  | [s] => s
  | s :: rest => s ++ ',' :: joinComma rest

/-- The chunk interpolated for one token by the f-string: the token wrapped
in single quotes, with no escaping. -/
def quoteTok (t : Str) : Str := '\'' :: t ++ ['\'']

/-- The Prolog list literal `"[" + ",".join(...) + "]"` built by
`route_request`. -/
def prologListStr (tokens : List Str) : Str :=
  '[' :: joinComma (tokens.map quoteTok) ++ [']']

/-- The query string: `route(`, then the list literal, then `, Decision)`. -/
def queryStr (tokens : List Str) : Str :=
  lit "route(" ++ prologListStr tokens ++ lit ", Decision)"

/-- The success-path dict construction of `route_request`: the fields of the
first solution's `Decision`, with `complexity_score` present and no `error`
key. -/
def formatDecision (d : PrologDecision) : RoutingDecision :=
  { domain := d.domain, stakes := d.stakes, model := d.model,
    validation_policy := d.validation, tools_required := d.tools,
    complexity_score := some d.score }

/-- The oracle type standing for `self.prolog.query`: a query string either
raises (the `Except.error` carries the exception text) or returns the list of
solutions, already extracted to `PrologDecision` records (an extraction
failure is absorbed into the error case, as the `try` block catches it too). -/
abbrev PrologOracle := Str → Except Str (List PrologDecision)

/-- `RouterService.route_request`: tokenize, build the query string, run the
oracle; an exception or an empty solution list yields the fallback, otherwise
the first solution is formatted. Total by construction: every exception path
of the Python code is the `Except.error` branch. -/
def route_request (pq : PrologOracle) (user_input : Str) : RoutingDecision :=
  let tokens := tokenize user_input
  let q := queryStr tokens
  match pq q with
  | .error e => fallback_response e
  | .ok [] => fallback_response (lit "No routing decision found")
  | .ok (d :: _) => formatDecision d

/-- Modelled from the spec: `route_request` composed with the spec-modelled
rule engine in place of the external Prolog query (the query-string round
trip is the identity on token lists, so the success path is
`formatDecision ∘ routeDecision ∘ tokenize`). -/
def route_request_spec (user_input : Str) : RoutingDecision :=
  formatDecision (routeDecision (tokenize user_input))

/-! ### Prolog query syntax (quoted-atom fragment)

The generated query is textual; whether the external engine can read it back
is a syntactic property. `scanQuery` models the reader for exactly the shape
`route([...], Decision)` with ISO Prolog quoted atoms (ISO 6.4.2.1, the
default SWI-Prolog reading with `character_escapes` on): inside a quoted
atom, `''` denotes one quote character, and a backslash starts an escape
sequence: a single-character escape (the characters listed in
`singleEscape`, including the escaped quote and the line continuation), a
hexadecimal escape (backslash, `x`, hex digits, backslash), or an octal
escape (backslash, octal digits, backslash). -/

/-- Scanner state: at the start of the atom list; inside a quoted atom; just
after a quote that closed an atom (where a second quote means the
quote-doubling escape and reopens the atom body); after a comma where an
atom must begin; just after a backslash inside an atom; after `\x` awaiting
the first hex digit; inside the digits of a hex escape; inside the digits of
an octal escape. -/
inductive ScanState where
  | start
  | body
  | closed
  | expectAtom
  | esc
  | escHexFirst
  | escHexRest
  | escOct
deriving DecidableEq, Repr

/-- The fixed tail of every generated query, after the list's `]`. -/
def queryTail : Str := lit ", Decision)"

/-- Characters that form a one-character escape sequence after a backslash in
a quoted atom (ISO single escapes, SWI's `\e` and `\s` extensions, and the
newline continuation). -/
def singleEscape (c : Char) : Bool :=
  c = '\\' || c = '\'' || c = '"' || c = Char.ofNat 96 || c = 'a' || c = 'b'
    || c = 'f' || c = 'n' || c = 'r' || c = 't' || c = 'v' || c = 'e'
    || c = 's' || c = '\n'

/-- Hexadecimal digit. -/
def hexDigit (c : Char) : Bool :=
  ('0' ≤ c && c ≤ '9') || ('a' ≤ c && c ≤ 'f') || ('A' ≤ c && c ≤ 'F')

/-- Octal digit. -/
def octDigit (c : Char) : Bool :=
  '0' ≤ c && c ≤ '7'

/-- Scan the remainder of a query after `route([`: a possibly empty
comma-separated sequence of quoted atoms, a `]`, then `, Decision)`.
Quote-doubling (`''` inside an atom denoting one quote character) is handled
by the `closed` state: a quote immediately after a closing quote reopens the
atom. A backslash inside an atom body starts an escape sequence, handled by
the `esc`, `escHexFirst`, `escHexRest` and `escOct` states; an undefined
escape character is a syntax error. -/
def scanQuery : ScanState → Str → Bool
  | _, [] => false
  | st, c :: rest =>
    match st with
    | ScanState.start =>
      if c = ']' then rest = queryTail
      else if c = '\'' then scanQuery ScanState.body rest
      else false
    | ScanState.body =>
      if c = '\'' then scanQuery ScanState.closed rest
      else if c = '\\' then scanQuery ScanState.esc rest
      else scanQuery ScanState.body rest
    | ScanState.closed =>
      if c = '\'' then scanQuery ScanState.body rest
      else if c = ',' then scanQuery ScanState.expectAtom rest
      else if c = ']' then rest = queryTail
      else false
    | ScanState.expectAtom =>
      if c = '\'' then scanQuery ScanState.body rest
      else false
    | ScanState.esc =>
      if singleEscape c then scanQuery ScanState.body rest
      else if c = 'x' then scanQuery ScanState.escHexFirst rest
      else if octDigit c then scanQuery ScanState.escOct rest
      else false
    | ScanState.escHexFirst =>
      if hexDigit c then scanQuery ScanState.escHexRest rest
      else false
    | ScanState.escHexRest =>
      if hexDigit c then scanQuery ScanState.escHexRest rest
      else if c = '\\' then scanQuery ScanState.body rest
      else false
    | ScanState.escOct =>
      if octDigit c then scanQuery ScanState.escOct rest
      else if c = '\\' then scanQuery ScanState.body rest
      else false

/-- Well-formedness of a whole query string: the literal head `route([`
followed by a scannable atom list and tail. -/
def queryWellFormed (q : Str) : Bool :=
  match q with
  | 'r' :: 'o' :: 'u' :: 't' :: 'e' :: '(' :: '[' :: rest => scanQuery .start rest
  | _ => false

/-! ### Lemmas about the tokenizer -/

theorem toNat_ofNat_valid (n : Nat) (h : n < 55296) : (Char.ofNat n).toNat = n := by
  rw [Char.ofNat, dif_pos (Or.inl h : n.isValidChar)]
  rfl

/-- `pyLower` is idempotent: lowering an already lowered character changes
nothing. -/
theorem pyLower_pyLower (c : Char) : pyLower (pyLower c) = pyLower c := by
  simp only [pyLower, Char.toLower]
  by_cases h : c.toNat ≥ 65 ∧ c.toNat ≤ 90
  · rw [if_pos h]
    have hv : (Char.ofNat (c.toNat + 32)).toNat = c.toNat + 32 :=
      toNat_ofNat_valid _ (by omega)
    rw [if_neg (by omega : ¬ ((Char.ofNat (c.toNat + 32)).toNat ≥ 65 ∧ (Char.ofNat (c.toNat + 32)).toNat ≤ 90))]
  · rw [if_neg h, if_neg h]

/-- `pyLower` never produces a single quote from another character. -/
theorem pyLower_eq_quote (c : Char) : (pyLower c = '\'') ↔ (c = '\'') := by
  constructor
  · intro h
    simp only [pyLower, Char.toLower] at h
    by_cases hc : c.toNat ≥ 65 ∧ c.toNat ≤ 90
    · rw [if_pos hc] at h
      have := congrArg Char.toNat h
      rw [toNat_ofNat_valid _ (by omega), show ('\'' : Char).toNat = 39 from rfl] at this
      omega
    · rwa [if_neg hc] at h
  · intro h; subst h; decide

/-- Every word produced by `splitWsAux` is non-empty. -/
theorem splitWsAux_ne_nil (s : Str) : ∀ (acc t : Str), t ∈ splitWsAux s acc → t ≠ [] := by
  induction s with
  | nil =>
    intro acc t ht
    unfold splitWsAux at ht
    by_cases ha : acc.isEmpty
    · simp [ha] at ht
    · simp [ha] at ht
      subst ht
      simpa [List.isEmpty_iff] using ha
  | cons c cs ih =>
    intro acc t ht
    unfold splitWsAux at ht
    by_cases hc : pySpace c
    · rw [if_pos hc] at ht
      by_cases ha : acc.isEmpty
      · rw [if_pos ha] at ht; exact ih [] t ht
      · rw [if_neg ha] at ht
        rcases List.mem_cons.mp ht with h | h
        · subst h; simpa [List.isEmpty_iff] using ha
        · exact ih [] t h
    · rw [if_neg hc] at ht
      exact ih (c :: acc) t ht

/-- Every character of every word produced by `splitWsAux` satisfies any
property holding on the non-space input characters and on the accumulator. -/
theorem splitWsAux_chars (P : Char → Prop) (s : Str) :
    ∀ (acc : Str), (∀ c ∈ s, ¬ pySpace c → P c) → (∀ c ∈ acc, P c) →
      ∀ t ∈ splitWsAux s acc, ∀ c ∈ t, P c := by
  induction s with
  | nil =>
    intro acc _ hacc t ht c hc
    unfold splitWsAux at ht
    by_cases ha : acc.isEmpty
    · simp [ha] at ht
    · simp [ha] at ht
      subst ht
      exact hacc c (List.mem_reverse.mp hc)
  | cons x xs ih =>
    intro acc hs hacc t ht c hc
    unfold splitWsAux at ht
    by_cases hx : pySpace x
    · rw [if_pos hx] at ht
      by_cases ha : acc.isEmpty
      · rw [if_pos ha] at ht
        exact ih [] (fun d hd => hs d (List.mem_cons_of_mem _ hd)) (by simp) t ht c hc
      · rw [if_neg ha] at ht
        rcases List.mem_cons.mp ht with h | h
        · subst h; exact hacc c (List.mem_reverse.mp hc)
        · exact ih [] (fun d hd => hs d (List.mem_cons_of_mem _ hd)) (by simp) t h c hc
    · rw [if_neg hx] at ht
      refine ih (x :: acc) (fun d hd => hs d (List.mem_cons_of_mem _ hd)) ?_ t ht c hc
      intro d hd
      rcases List.mem_cons.mp hd with h | h
      · rw [h]; exact hs x (List.mem_cons_self x xs) hx
      · exact hacc d h

/-- Concatenating the words of `splitWsAux` recovers exactly the non-space
characters, in order. -/
theorem splitWsAux_flatten (s : Str) :
    ∀ (acc : Str), (splitWsAux s acc).flatten = acc.reverse ++ s.filter (fun c => !pySpace c) := by
  induction s with
  | nil =>
    intro acc
    unfold splitWsAux
    by_cases ha : acc.isEmpty
    · simp [ha, List.isEmpty_iff.mp ha]
    · simp [ha]
  | cons c cs ih =>
    intro acc
    unfold splitWsAux
    by_cases hc : pySpace c
    · rw [if_pos hc]
      by_cases ha : acc.isEmpty
      · rw [if_pos ha]
        simp [ih, List.isEmpty_iff.mp ha, List.filter_cons, hc]
      · rw [if_neg ha]
        simp [ih, List.filter_cons, hc]
    · rw [if_neg hc]
      simp [ih, List.filter_cons, hc]

/-- On an input with no whitespace at all, `splitWsAux` yields the single
word made of the accumulator and the input (or nothing when both are empty). -/
theorem splitWsAux_no_space (s : Str) :
    ∀ (acc : Str), (∀ c ∈ s, pySpace c = false) →
      splitWsAux s acc = if acc.reverse ++ s = [] then [] else [acc.reverse ++ s] := by
  induction s with
  | nil =>
    intro acc _
    unfold splitWsAux
    by_cases ha : acc.isEmpty
    · simp [ha, List.isEmpty_iff.mp ha]
    · have : acc ≠ [] := by simpa [List.isEmpty_iff] using ha
      simp [ha, this]
  | cons c cs ih =>
    intro acc hs
    unfold splitWsAux
    rw [if_neg (by simpa using hs c (List.mem_cons_self c cs))]
    rw [ih (c :: acc) (fun d hd => hs d (List.mem_cons_of_mem _ hd))]
    simp

/-- Unfolding `tokenize` through `splitWs`. -/
theorem tokenize_def (text : Str) : tokenize text = splitWsAux (cleanText text) [] := rfl

/-- Every character surviving the cleaning pass is a lowered character and is
none of the three stripped punctuation marks. -/
theorem cleanText_chars (text : Str) :
    ∀ c ∈ cleanText text, pyLower c = c ∧ isStripped c = false := by
  intro c hc
  unfold cleanText removeChar at hc
  simp only [List.mem_filter, List.mem_map, decide_eq_true_eq] at hc
  obtain ⟨⟨⟨⟨b, _, rfl⟩, h1⟩, h2⟩, h3⟩ := hc
  refine ⟨pyLower_pyLower b, ?_⟩
  simp [isStripped, h1, h2, h3]

/-- Structure of the token sequence: every token is non-empty and consists
only of lowered, non-stripped, non-whitespace characters. -/
theorem tokenize_token_chars (text : Str) :
    ∀ t ∈ tokenize text,
      t ≠ [] ∧ ∀ c ∈ t, pyLower c = c ∧ isStripped c = false ∧ pySpace c = false := by
  intro t ht
  rw [tokenize_def] at ht
  refine ⟨splitWsAux_ne_nil (cleanText text) [] t ht, ?_⟩
  have h2 := splitWsAux_chars
    (fun c => pyLower c = c ∧ isStripped c = false ∧ pySpace c = false)
    (cleanText text) []
    (fun c hc hcs => ⟨(cleanText_chars text c hc).1, (cleanText_chars text c hc).2,
      by simpa using hcs⟩)
    (by simp) t ht
  exact h2

/-- Concatenating all tokens recovers exactly the cleaned non-space
characters, in order. -/
theorem tokenize_flatten (text : Str) :
    (tokenize text).flatten = (cleanText text).filter (fun c => !pySpace c) := by
  rw [tokenize_def, splitWsAux_flatten]
  simp

/-- The tokenizer contract in one equation: tokens concatenate to the
lowercased input with exactly `.`, `,`, `?` and whitespace removed. -/
theorem tokenize_flatten_eq (text : Str) :
    (tokenize text).flatten
      = (text.map pyLower).filter (fun c => !isStripped c && !pySpace c) := by
  rw [tokenize_flatten]
  unfold cleanText removeChar
  simp only [List.filter_filter]
  apply List.filter_congr
  intro c _
  by_cases h1 : c = '.' <;> by_cases h2 : c = ',' <;> by_cases h3 : c = '?' <;>
    simp [isStripped, h1, h2, h3]

/-- A character that is not one of the three stripped marks differs from each
of them. -/
theorem not_stripped_char (c : Char) (h : isStripped c = false) :
    c ≠ '.' ∧ c ≠ ',' ∧ c ≠ '?' := by
  simpa [isStripped, and_assoc] using h

/-- On a non-empty whitespace-free word that is fixed by the cleaning pass,
the tokenizer returns exactly that word. -/
theorem tokenize_singleton (t : Str) (hne : t ≠ [])
    (hch : ∀ c ∈ t, pyLower c = c ∧ isStripped c = false ∧ pySpace c = false) :
    tokenize t = [t] := by
  rw [tokenize_def]
  have hclean : cleanText t = t := by
    unfold cleanText removeChar
    have hmap : List.map pyLower t = t := by
      rw [List.map_congr_left (fun c hc => (hch c hc).1)]
      exact List.map_id t
    rw [hmap]
    have h1 : List.filter (fun c => decide (c ≠ '.')) t = t :=
      List.filter_eq_self.mpr
        (fun c hc => by simpa using (not_stripped_char c (hch c hc).2.1).1)
    have h2 : List.filter (fun c => decide (c ≠ ',')) t = t :=
      List.filter_eq_self.mpr
        (fun c hc => by simpa using (not_stripped_char c (hch c hc).2.1).2.1)
    have h3 : List.filter (fun c => decide (c ≠ '?')) t = t :=
      List.filter_eq_self.mpr
        (fun c hc => by simpa using (not_stripped_char c (hch c hc).2.1).2.2)
    rw [h1, h2, h3]
  rw [hclean, splitWsAux_no_space t [] (fun c hc => (hch c hc).2.2)]
  simp [hne]

/-! ### Quote counting and query syntax -/

/-- Lowercasing keeps the number of single quotes unchanged. -/
theorem count_quote_map_pyLower (s : Str) :
    List.count '\'' (s.map pyLower) = List.count '\'' s := by
  induction s with
  | nil => rfl
  | cons c cs ih =>
    by_cases h : c = '\''
    · subst h
      have hl : pyLower '\'' = '\'' := (pyLower_eq_quote '\'').mpr rfl
      simp [List.count_cons, ih, hl]
    · have h2 : pyLower c ≠ '\'' := fun hh => h ((pyLower_eq_quote c).mp hh)
      simp [List.count_cons, ih, h, h2]

/-- Tokenization keeps the total number of single quotes: quotes are neither
stripped nor whitespace. -/
theorem count_quote_tokenize (text : Str) :
    List.count '\'' (tokenize text).flatten = List.count '\'' text := by
  rw [tokenize_flatten]
  unfold cleanText removeChar
  rw [List.count_filter (by decide), List.count_filter (by decide),
    List.count_filter (by decide), List.count_filter (by decide),
    count_quote_map_pyLower]

/-- Every quote of the input survives into some token. -/
theorem quote_mem_tokenize (input : Str) (h : '\'' ∈ input) :
    ∃ t ∈ tokenize input, '\'' ∈ t := by
  have h2 : 0 < List.count '\'' (tokenize input).flatten := by
    rw [count_quote_tokenize]
    exact List.count_pos_iff.mpr h
  have h3 := List.mem_flatten.mp (List.count_pos_iff.mp h2)
  obtain ⟨t, ht, hq⟩ := h3
  exact ⟨t, ht, hq⟩


/-! ### Lemmas about the spec-modelled rule engine -/

/-- The architecture override: stakes are high whatever the score. -/
theorem stakesOf_arch (n : Nat) : stakesOf (lit "coding_architecture") n = lit "high" := by
  unfold stakesOf
  rw [if_pos rfl]

/-- The model selector sends the `unknown` domain to the system default,
whatever the stakes. -/
theorem selectModel_unknown (s : Str) : selectModel (lit "unknown") s = lit "gpt_oss_20b" := by
  unfold selectModel
  rw [if_neg (fun hh => absurd hh.1 (by decide)),
    if_neg (fun hh => absurd hh.1 (by decide)),
    if_neg (fun hh => absurd hh.1 (by decide))]

/-- When no domain rule fires, classification yields `unknown`. -/
theorem classifyDomain_no_match (ts : List Str)
    (h : ∀ r ∈ domainRules, ∀ p ∈ r.1, phraseIn p ts = false) :
    classifyDomain ts = lit "unknown" := by
  unfold classifyDomain
  rw [List.find?_eq_none.mpr]
  intro r hr
  simp only [List.any_eq_true, not_exists, not_and]
  intro p hp hin
  rw [h r hr p hp] at hin
  cases hin

/-- The domain classifier only ever returns one of the five domain names, so
its result is never the empty string. -/
theorem classifyDomain_ne_nil (ts : List Str) : classifyDomain ts ≠ [] := by
  unfold classifyDomain
  cases hfind : domainRules.find? (fun r => r.1.any (fun p => phraseIn p ts)) with
  | none => decide
  | some r =>
    have hr : r ∈ domainRules := List.mem_of_find?_eq_some hfind
    have hall : ∀ x ∈ domainRules, x.2 ≠ [] := by decide
    exact hall r hr

/-- The stakes bucket is one of three non-empty names. -/
theorem bucketStakes_ne_nil (n : Nat) : bucketStakes n ≠ [] := by
  unfold bucketStakes
  split
  · decide
  · split
    · decide
    · decide

/-- Stakes, with or without the override, are never the empty string. -/
theorem stakesOf_ne_nil (d : Str) (n : Nat) : stakesOf d n ≠ [] := by
  unfold stakesOf
  split
  · decide
  · exact bucketStakes_ne_nil n

/-- The model selector is total and never returns the empty string. -/
theorem selectModel_ne_nil (d s : Str) : selectModel d s ≠ [] := by
  unfold selectModel
  split
  · decide
  · split
    · decide
    · split
      · decide
      · decide

/-- The validation policy mapper is total and never returns the empty
string. -/
theorem selectValidation_ne_nil (d s : Str) : selectValidation d s ≠ [] := by
  unfold selectValidation
  split
  · decide
  · split
    · decide
    · decide

/-! ### The claims -/

/-- C1: whenever classification fails (the query raises) or yields no usable
result (an empty solution list), `route_request` returns the fixed fallback
decision with constant fields `unknown` / `medium` / `gpt_oss_20b` /
`end_stage` / `[embeddings]`, no complexity score, and only the `error` field
carrying the failure reason; nothing else depends on the input. -/
theorem C1_fixed_fallback :
    (∀ (pq : PrologOracle) (input e : Str),
        pq (queryStr (tokenize input)) = .error e →
        route_request pq input = fallback_response e)
    ∧ (∀ (pq : PrologOracle) (input : Str),
        pq (queryStr (tokenize input)) = .ok [] →
        route_request pq input = fallback_response (lit "No routing decision found"))
    ∧ (∀ reason : Str,
        (fallback_response reason).domain = lit "unknown"
        ∧ (fallback_response reason).stakes = lit "medium"
        ∧ (fallback_response reason).model = lit "gpt_oss_20b"
        ∧ (fallback_response reason).validation_policy = lit "end_stage"
        ∧ (fallback_response reason).tools_required = [lit "embeddings"]
        ∧ (fallback_response reason).complexity_score = none
        ∧ (fallback_response reason).error = some reason) := by
  refine ⟨?_, ?_, ?_⟩
  · intro pq input e h
    simp only [route_request]
    rw [h]
  · intro pq input h
    simp only [route_request]
    rw [h]
  · intro reason
    exact ⟨rfl, rfl, rfl, rfl, rfl, rfl, rfl⟩

theorem C1_fixed_fallback_witness :
    route_request (fun _ => .error (lit "boom")) (lit "hello")
        = fallback_response (lit "boom")
    ∧ route_request (fun _ => .ok []) (lit "hello")
        = fallback_response (lit "No routing decision found") :=
  ⟨C1_fixed_fallback.1 _ _ _ rfl, C1_fixed_fallback.2.1 _ _ rfl⟩

/-- C2: the tokenizer lowercases the whole input, removes exactly the three
characters `.`, `,`, `?` and nothing else, and splits on whitespace into an
ordered sequence of non-empty tokens; the empty input gives zero tokens. The
first conjunct states the whole contract as one equation: the concatenation
of the tokens, in order, is exactly the lowercased input minus the three
stripped characters and whitespace. -/
theorem C2_tokenizer_contract (text : Str) :
    ((tokenize text).flatten
      = (text.map pyLower).filter (fun c => !isStripped c && !pySpace c))
    ∧ (∀ t ∈ tokenize text,
        t ≠ [] ∧ ∀ c ∈ t, pyLower c = c ∧ isStripped c = false ∧ pySpace c = false)
    ∧ tokenize [] = [] :=
  ⟨tokenize_flatten_eq text, tokenize_token_chars text, rfl⟩

theorem C2_tokenizer_contract_witness :
    lit "hello" ≠ []
    ∧ ∀ c ∈ lit "hello", pyLower c = c ∧ isStripped c = false ∧ pySpace c = false :=
  (C2_tokenizer_contract (lit "Hello, world?")).2.1 (lit "hello") (by decide)

/-- C3: `route_request` is total — every outcome is either a formatted
success record or a fallback record, never a propagated exception — and any
exception raised by the query (modelled by the oracle's error case) is
recovered locally into the fallback with the exception's text as `error`. -/
theorem C3_no_propagation (pq : PrologOracle) (input : Str) :
    ((∃ e, route_request pq input = fallback_response e)
      ∨ (∃ d, route_request pq input = formatDecision d))
    ∧ (∀ e, pq (queryStr (tokenize input)) = .error e →
        route_request pq input = fallback_response e
        ∧ (route_request pq input).error = some e) := by
  constructor
  · simp only [route_request]
    cases hpq : pq (queryStr (tokenize input)) with
    | error e => exact Or.inl ⟨e, rfl⟩
    | ok ds =>
      cases ds with
      | nil => exact Or.inl ⟨lit "No routing decision found", rfl⟩
      | cons d rest => exact Or.inr ⟨d, rfl⟩
  · intro e h
    simp only [route_request]
    rw [h]
    exact ⟨rfl, rfl⟩

theorem C3_no_propagation_witness :
    route_request (fun _ => .error (lit "PrologError")) (lit "Route this?")
        = fallback_response (lit "PrologError")
    ∧ (route_request (fun _ => .error (lit "PrologError")) (lit "Route this?")).error
        = some (lit "PrologError") :=
  (C3_no_propagation (fun _ => .error (lit "PrologError")) (lit "Route this?")).2 _ rfl

/-- C4: any input classified into the `coding_architecture` domain gets
stakes `high`, model `qwen_coder_32b` and validation policy
`block_by_block`, regardless of its complexity score. -/
theorem C4_architecture_override (input : Str)
    (h : classifyDomain (tokenize input) = lit "coding_architecture") :
    (route_request_spec input).stakes = lit "high"
    ∧ (route_request_spec input).model = lit "qwen_coder_32b"
    ∧ (route_request_spec input).validation_policy = lit "block_by_block" := by
  simp only [route_request_spec, routeDecision, formatDecision]
  rw [h, stakesOf_arch]
  exact ⟨rfl, by decide, by decide⟩

theorem C4_architecture_override_witness :
    (route_request_spec (lit "Refactor the system architecture to use dependency injection.")).stakes
        = lit "high"
    ∧ (route_request_spec (lit "Refactor the system architecture to use dependency injection.")).model
        = lit "qwen_coder_32b"
    ∧ (route_request_spec (lit "Refactor the system architecture to use dependency injection.")).validation_policy
        = lit "block_by_block" :=
  C4_architecture_override _ (by decide)

/-- C5: an input triggering no domain rule is classified `unknown` and routed
to the default model `gpt_oss_20b`; and when the rule query returns no
solution at all, `route_request` returns the fixed fallback whose error text
is `No routing decision found`. -/
theorem C5_unknown_default :
    (∀ input : Str,
        (∀ r ∈ domainRules, ∀ p ∈ r.1, phraseIn p (tokenize input) = false) →
        (route_request_spec input).domain = lit "unknown"
        ∧ (route_request_spec input).model = lit "gpt_oss_20b")
    ∧ (∀ (pq : PrologOracle) (input : Str),
        pq (queryStr (tokenize input)) = .ok [] →
        route_request pq input = fallback_response (lit "No routing decision found")
        ∧ (route_request pq input).error = some (lit "No routing decision found")) := by
  constructor
  · intro input h
    have hdom := classifyDomain_no_match (tokenize input) h
    simp only [route_request_spec, routeDecision, formatDecision]
    rw [hdom, selectModel_unknown]
    exact ⟨rfl, rfl⟩
  · intro pq input h
    simp only [route_request]
    rw [h]
    exact ⟨rfl, rfl⟩

theorem C5_unknown_default_witness :
    (route_request_spec (lit "Banana burger sky blue.")).domain = lit "unknown"
    ∧ (route_request_spec (lit "Banana burger sky blue.")).model = lit "gpt_oss_20b"
    ∧ route_request (fun _ => .ok []) (lit "Banana burger sky blue.")
        = fallback_response (lit "No routing decision found") :=
  ⟨(C5_unknown_default.1 _ (by decide)).1, (C5_unknown_default.1 _ (by decide)).2,
    (C5_unknown_default.2 _ _ rfl).1⟩

/-- C6: on the success path (spec-modelled rules) and on the fallback path
alike, the four fields `domain`, `stakes`, `model` and `validation_policy`
are always present and non-empty. -/
theorem C6_fields_nonempty (input reason : Str) :
    ((route_request_spec input).domain ≠ []
      ∧ (route_request_spec input).stakes ≠ []
      ∧ (route_request_spec input).model ≠ []
      ∧ (route_request_spec input).validation_policy ≠ [])
    ∧ ((fallback_response reason).domain ≠ []
      ∧ (fallback_response reason).stakes ≠ []
      ∧ (fallback_response reason).model ≠ []
      ∧ (fallback_response reason).validation_policy ≠ []) := by
  refine ⟨⟨?_, ?_, ?_, ?_⟩,
    show lit "unknown" ≠ [] by decide, show lit "medium" ≠ [] by decide,
    show lit "gpt_oss_20b" ≠ [] by decide, show lit "end_stage" ≠ [] by decide⟩
  · exact classifyDomain_ne_nil (tokenize input)
  · exact stakesOf_ne_nil _ _
  · exact selectModel_ne_nil _ _
  · exact selectValidation_ne_nil _ _

/-- C7: `route_request` is a pure function of the input text and the fixed
rules: it factors through the token sequence, so two calls on identical text
(indeed on any texts with equal tokenizations) give identical records. -/
theorem C7_deterministic (pq : PrologOracle) (a b : Str)
    (h : tokenize a = tokenize b) :
    route_request pq a = route_request pq b := by
  simp only [route_request]
  rw [h]

theorem C7_deterministic_witness :
    route_request (fun _ => .ok []) (lit "Hello.")
        = route_request (fun _ => .ok []) (lit "hello") :=
  C7_deterministic _ _ _ (by decide)

/-- C8: the returned record carries `complexity_score` exactly on the
success path and `error` exactly on the fallback path, never both. -/
theorem C8_score_xor_error (pq : PrologOracle) (input : Str) :
    ((route_request pq input).error = none
      ∧ (∃ n, (route_request pq input).complexity_score = some n)
      ∧ (∃ d, route_request pq input = formatDecision d))
    ∨ ((route_request pq input).complexity_score = none
      ∧ (∃ e, (route_request pq input).error = some e
          ∧ route_request pq input = fallback_response e)) := by
  simp only [route_request]
  cases hpq : pq (queryStr (tokenize input)) with
  | error e => exact Or.inr ⟨rfl, e, rfl, rfl⟩
  | ok ds =>
    cases ds with
    | nil => exact Or.inr ⟨rfl, lit "No routing decision found", rfl, rfl⟩
    | cons d rest => exact Or.inl ⟨rfl, ⟨d.score, rfl⟩, ⟨d, rfl⟩⟩

/-- C9 counterexample: the input consisting of two single quotes contains an
apostrophe that survives tokenization, yet its generated query is
syntactically well-formed — the two unescaped quotes form Prolog's
quote-doubling escape — refuting the claim that every apostrophe-bearing
input produces a malformed query. -/
theorem C9_quote_counterexample :
    '\'' ∈ lit "''"
    ∧ (∃ t ∈ tokenize (lit "''"), '\'' ∈ t)
    ∧ queryWellFormed (queryStr (tokenize (lit "''"))) = true := by decide

/-- C9 (amended): every apostrophe of the input survives tokenization into
some token, and the interpolation wraps each token in unescaped single
quotes; when this makes the query malformed — as for a token carrying a
single unpaired apostrophe, witnessed by the input `it's` — the engine's
rejection is caught and `route_request` degrades to the fallback decision
rather than raising. Not every apostrophe-bearing input yields a malformed
query, however: the apostrophes can combine into Prolog's quote-doubling
escape (the `''` counterexample). -/
theorem C9_quotes_degrade (input : Str) :
    ('\'' ∈ input → ∃ t ∈ tokenize input, '\'' ∈ t)
    ∧ queryWellFormed (queryStr (tokenize (lit "it's"))) = false
    ∧ (∀ (pq : PrologOracle) (e : Str),
        pq (queryStr (tokenize input)) = .error e →
        route_request pq input = fallback_response e) := by
  refine ⟨quote_mem_tokenize input, by decide, ?_⟩
  intro pq e h
  simp only [route_request]
  rw [h]

theorem C9_quotes_degrade_witness :
    (∃ t ∈ tokenize (lit "it's"), '\'' ∈ t)
    ∧ queryWellFormed (queryStr (tokenize (lit "it's"))) = false
    ∧ route_request (fun _ => .error (lit "syntax error")) (lit "it's")
        = fallback_response (lit "syntax error") :=
  ⟨(C9_quotes_degrade (lit "it's")).1 (by decide),
    (C9_quotes_degrade (lit "it's")).2.1,
    (C9_quotes_degrade (lit "it's")).2.2 _ _ rfl⟩

/-- C10: the tokenizer is idempotent on its own output — every produced token
retokenizes to exactly itself. -/
theorem C10_tokenize_idempotent (s t : Str) (h : t ∈ tokenize s) :
    tokenize t = [t] := by
  obtain ⟨hne, hch⟩ := tokenize_token_chars s t h
  exact tokenize_singleton t hne hch

theorem C10_tokenize_idempotent_witness :
    tokenize (lit "hello") = [lit "hello"] :=
  C10_tokenize_idempotent (lit "Hello, world?") (lit "hello") (by decide)

end Router
